import Mathlib

/-!
# goche: an in-process key/value cache with per-entry TTL

A shallow embedding of `cache.go` and `item.go`.

Modelling conventions.

* A `time.Duration` is a signed count of nanoseconds, an `Int`;
  `Duration.Microseconds()` is Go's truncating division by `1000`.
* A `time.Time` is a point on the integer nanosecond time line, an `Int`;
  `Time.Add` is addition and `Time.After` is strict order.  The 64-bit range of
  a duration and the saturation of `Time.Add` at the ends of the representable
  time line are not modelled.
* The injected clock `timeNowFunc` is made explicit: `Get` and `Set` read the
  clock once and take the reading `now` as an argument.  A sweep reads the
  clock once for every key it visits, so `deleteExpires` takes a function
  `clock`, where `clock k` is the reading taken when the loop visits `k`; a
  clock that stands still at `now` during the sweep is `fun _ => now`.
* The Go maps `items` and `expires` are a finite map and a finite set.  The
  operations are sequential; of the lock `mu` the model records only which
  section each method holds for its body (`Method.lock`).
-/

namespace Goche

/-- The `Duration.Microseconds` method of Go: integer division truncating toward zero. -/
def Microseconds (d : Int) : Int := Int.tdiv d 1000

/-- The constant `defaultPollInterval`, one second. -/
def defaultPollInterval : Int := 1000000000

/-- The struct `cacheItem`: a cached value and its parameters. -/
structure cacheItem (V : Type) where
  val : V
  cachedAt : Int
  ttlReset : Bool
  ttl : Int
  deriving DecidableEq

/-- The functional parameter `CacheItemOption`, a modification of a `cacheItem`. -/
abbrev CacheItemOption (V : Type) := cacheItem V → cacheItem V

/-- The option `TTL(ttl, reset...)`: sets the TTL and, when a `reset` argument is
given, sets the reset flag to the first one. -/
def TTL {V : Type} (ttl : Int) (reset : List Bool) : CacheItemOption V :=
  fun c =>
    let c := { c with ttl := ttl }
    match reset with
    | r :: _ => { c with ttlReset := r }
    | [] => c

/-- The option `TTLWithReset(ttl)`, which is `TTL(ttl, true)`. -/
def TTLWithReset {V : Type} (ttl : Int) : CacheItemOption V :=
  TTL ttl [true]

/-- The method `checkTTL`: the entry is alive at `time`. -/
def cacheItem.checkTTL {V : Type} (i : cacheItem V) (time : Int) : Bool :=
  decide (Microseconds i.ttl = 0) || !decide (time > i.cachedAt + i.ttl)

/-- The struct `Cache` without its lock and with the clock made a parameter of the
operations. -/
@[ext]
structure Cache (K V : Type) [DecidableEq K] where
  items : Finmap (fun _ : K => cacheItem V)
  expires : Finset K
  pollInterval : Int
  defaultTTL : Int
  defaultTTLReset : Bool

variable {K V : Type} [DecidableEq K]

/-- The method `newItem`: stamps `cachedAt` from the clock and applies the options in
order. -/
def newItem (now : Int) (val : V) (opts : List (CacheItemOption V)) : cacheItem V :=
  opts.foldl (fun item opt => opt item)
    { val := val, cachedAt := now, ttlReset := false, ttl := 0 }

namespace Cache

/-- The method `Get`: the returned pair `(val, ok)` and the state after the call. -/
def Get [Inhabited V] (c : Cache K V) (key : K) (now : Int) : (V × Bool) × Cache K V :=
  match c.items.lookup key with
  | none => ((default, false), c)
  | some item =>
    if !item.checkTTL now then ((default, false), c)
    else if item.ttlReset then
      let item := { item with cachedAt := now }
      ((item.val, true), { c with items := c.items.insert key item })
    else ((item.val, true), c)

/-- The method `applyDefaultTTL`. -/
def applyDefaultTTL (c : Cache K V) (item : cacheItem V) : cacheItem V :=
  let item :=
    if Microseconds item.ttl = 0 ∧ Microseconds c.defaultTTL > 0 then
      { item with ttl := c.defaultTTL }
    else item
  if !item.ttlReset && c.defaultTTLReset then { item with ttlReset := true } else item

/-- The method `addToExpires`. -/
def addToExpires (c : Cache K V) (key : K) (ttl : Int) : Cache K V :=
  if Microseconds ttl > 0 then { c with expires := insert key c.expires } else c

/-- The method `deleteFromExpires`. -/
def deleteFromExpires (c : Cache K V) (key : K) : Cache K V :=
  { c with expires := c.expires.erase key }

/-- The method `Set`. -/
def Set (c : Cache K V) (key : K) (val : V) (opts : List (CacheItemOption V))
    (now : Int) : Cache K V :=
  let item := newItem now val opts
  let item := c.applyDefaultTTL item
  let c := c.addToExpires key item.ttl
  { c with items := c.items.insert key item }

/-- The method `delete`, shared by `Delete` and the sweep. -/
def delete (c : Cache K V) (key : K) : Cache K V :=
  deleteFromExpires { c with items := c.items.erase key } key

/-- The method `Delete`. -/
def Delete (c : Cache K V) (key : K) : Cache K V :=
  c.delete key

/-- The method `Count`. -/
def Count (c : Cache K V) : Nat :=
  c.items.keys.card

/-- The method `expiresCount`. -/
def expiresCount (c : Cache K V) : Nat :=
  c.expires.card

/-- The body of the loop of `deleteExpires` for one key `k` of `expires`; `clock k` is
the reading `c.timeNowFunc()` returns when the loop visits `k`. -/
def sweepStep (clock : K → Int) (k : K) (c : Cache K V) : Cache K V :=
  match c.items.lookup k with
  | none => c
  | some item => if !item.checkTTL (clock k) then c.delete k else c

/-- Whether `k` is in the table with an entry that is not alive at `now`. -/
def expired (c : Cache K V) (now : Int) (k : K) : Bool :=
  match c.items.lookup k with
  | none => false
  | some item => !item.checkTTL now

instance sweepStep_leftComm (clock : K → Int) :
    LeftCommutative (sweepStep clock : K → Cache K V → Cache K V) where
  left_comm := by
    intro k k' c
    have step : ∀ (a : K) (d : Cache K V),
        sweepStep clock a d = if d.expired (clock a) a then d.delete a else d := by
      intro a d
      unfold sweepStep expired
      cases d.items.lookup a <;> simp
    have keep : ∀ a b : K, a ≠ b →
        (c.delete b).expired (clock a) a = c.expired (clock a) a := by
      intro a b hab
      simp [expired, delete, deleteFromExpires, Finmap.lookup_erase_ne hab]
    have swap : (c.delete k').delete k = (c.delete k).delete k' := by
      ext1
      · simp only [delete, deleteFromExpires]; exact Finmap.erase_erase
      · simp only [delete, deleteFromExpires]; exact Finset.erase_right_comm
      all_goals rfl
    by_cases h : k = k'
    · subst h; rfl
    · have h' : k' ≠ k := fun e => h e.symm
      simp only [step]
      by_cases e1 : c.expired (clock k) k <;> by_cases e2 : c.expired (clock k') k' <;>
        simp [e1, e2, keep k k' h, keep k' k h', swap]

/-- The method `deleteExpires`: the loop body runs once for every key of `expires`,
in an unspecified order, and reads the clock anew for every key: `clock k` is the
reading taken for `k`. -/
def deleteExpires (c : Cache K V) (clock : K → Int) : Cache K V :=
  Multiset.foldr (sweepStep clock) c c.expires.val

/-- The functional option `Option` of the constructor. -/
abbrev CacheOption (K V : Type) [DecidableEq K] := Cache K V → Cache K V

/-- The function `newCacheMapIfNil`; the capacity hint `size` has no effect on the
contents. -/
def newCacheMapIfNil (m : Finmap (fun _ : K => cacheItem V)) (_size : Int) :
    Finmap (fun _ : K => cacheItem V) :=
  if m.keys.card > 0 then m else ∅

/-- The option `WithSize`. -/
def WithSize (size : Int) : CacheOption K V :=
  fun c => { c with items := newCacheMapIfNil c.items size }

/-- The option `WithDefaultTTL(ttl, reset...)`. -/
def WithDefaultTTL (ttl : Int) (reset : List Bool) : CacheOption K V :=
  fun c =>
    let c := { c with defaultTTL := ttl }
    match reset with
    | r :: _ => if Microseconds ttl > 0 then { c with defaultTTLReset := r } else c
    | [] => c

/-- The option `WithPollInterval`. -/
def WithPollInterval (interval : Int) : CacheOption K V :=
  fun c => { c with pollInterval := interval }

/-- The constructor `New`: the zero-valued store with every option applied in order. -/
def New (opts : List (CacheOption K V)) : Cache K V :=
  let c : Cache K V :=
    { items := ∅, expires := ∅, pollInterval := 0, defaultTTL := 0,
      defaultTTLReset := false }
  let c := opts.foldl (fun c opt => opt c) c
  { c with items := newCacheMapIfNil c.items 0 }

/-- The body of the loop of `WithValues` for one key of the map `m`: the entry of the
key becomes a fresh item without options holding the key's value. -/
def preloadStep (now : Int) (m : Finmap (fun _ : K => V)) (key : K)
    (items : Finmap (fun _ : K => cacheItem V)) : Finmap (fun _ : K => cacheItem V) :=
  match m.lookup key with
  | none => items
  | some val => items.insert key (newItem now val [])

instance preloadStep_leftComm (now : Int) (m : Finmap (fun _ : K => V)) :
    LeftCommutative (preloadStep now m) where
  left_comm := by
    intro k k' acc
    by_cases h : k = k'
    · subst h; rfl
    · unfold preloadStep
      cases m.lookup k <;> cases m.lookup k' <;> simp
      exact Finmap.insert_insert_of_ne _ (fun e => h e.symm)

/-- The option `WithValues`: an empty map changes nothing; otherwise the table is
replaced by a fresh one filled from `m`, in an unspecified order.  The clock is read
once per key; the model uses one reading `now` for the whole load. -/
def WithValues (m : Finmap (fun _ : K => V)) (now : Int) : CacheOption K V :=
  fun c =>
    if m.keys.card = 0 then c
    else { c with items := Multiset.foldr (preloadStep now m) ∅ m.keys.val }

/-- The interval that `Run` computes from `pollInterval` and hands to `pollWork`, which
starts its ticker with it. -/
def Run_interval (c : Cache K V) : Int :=
  if Microseconds c.pollInterval = 0 then defaultPollInterval else c.pollInterval

/-- The two sections of the lock `mu`: `RLock` is shared, `Lock` is exclusive. -/
inductive LockSection where
  | shared
  | exclusive
  deriving DecidableEq

/-- The methods of `Cache` that take the lock. -/
inductive Method where
  | Get
  | Set
  | Delete
  | Count
  | expiresCount
  | deleteExpires
  deriving DecidableEq

/-- The section of `mu` each method acquires on entry and holds until it returns. -/
def Method.lock : Method → LockSection
  | .Get => .shared
  | .Set => .exclusive
  | .Delete => .exclusive
  | .Count => .shared
  | .expiresCount => .shared
  | .deleteExpires => .exclusive

/-- The options a caller can pass to `New`. -/
inductive NewOption (K V : Type) [DecidableEq K] where
  | WithSize (size : Int)
  | WithValues (m : Finmap (fun _ : K => V)) (now : Int)
  | WithDefaultTTL (ttl : Int) (reset : List Bool)
  | WithPollInterval (interval : Int)

/-- The functional option a `NewOption` stands for. -/
def NewOption.toOption : NewOption K V → CacheOption K V
  | .WithSize size => Cache.WithSize size
  | .WithValues m now => Cache.WithValues m now
  | .WithDefaultTTL ttl reset => Cache.WithDefaultTTL ttl reset
  | .WithPollInterval interval => Cache.WithPollInterval interval

/-- Whether the option is `WithValues`. -/
def NewOption.isWithValues : NewOption K V → Bool
  | .WithValues _ _ => true
  | _ => false

/-- A call of one of the state-changing public methods or of the sweep, with its
arguments and the clock readings during the call. -/
inductive Call (K V : Type) where
  | Get (key : K) (now : Int)
  | Set (key : K) (val : V) (opts : List (CacheItemOption V)) (now : Int)
  | Delete (key : K)
  | deleteExpires (clock : K → Int)

/-- The state after a call. -/
def Call.run [Inhabited V] (c : Cache K V) : Call K V → Cache K V
  | .Get key now => (c.Get key now).2
  | .Set key val opts now => c.Set key val opts now
  | .Delete key => c.Delete key
  | .deleteExpires clock => c.deleteExpires clock

/-- The store built by `New` from a list of options, after a sequence of calls. -/
def runCalls [Inhabited V] (os : List (NewOption K V)) (calls : List (Call K V)) :
    Cache K V :=
  calls.foldl Call.run (New (os.map NewOption.toOption))

/-- A store with two keys set at clock reading `100` with a TTL of `1000`: both
entries are alive up to `1100` and expired from `1101` on. -/
def expiryFixture : Cache Nat Nat :=
  ((New []).Set 1 7 [TTL 1000 []] 100).Set 2 8 [TTL 1000 []] 100

/-- A clock that advances during a sweep: it reads `1100` when key `1` is visited and
`1101` when any other key is visited. -/
def advancingClock : Nat → Int :=
  fun k => if k = 1 then 1100 else 1101

/-- A map of two pairs to preload: `1 ↦ 7` and `2 ↦ 8`. -/
def preloadFixture : Finmap (fun _ : Nat => Nat) :=
  (Finmap.singleton 1 7).insert 2 8

/-- A store with three keys set at clock reading `0`: key `1` with a TTL of one
microsecond, key `2` without TTL, key `3` with a TTL of one second. -/
def sweepFixture : Cache Nat Nat :=
  (((New []).Set 1 7 [TTL 1000 []] 0).Set 2 8 [] 0).Set 3 9 [TTL 1000000000 []] 0

end Cache

/-! ## Properties -/

namespace Cache

/-! ### Helper lemmas -/

theorem Microseconds_eq (d : Int) :
    Microseconds d = if 0 ≤ d then d / 1000 else -((-d) / 1000) := by
  unfold Microseconds
  split
  · next h => exact Int.tdiv_eq_ediv h (by decide)
  · next h =>
    have h1 : d = -(-d) := by omega
    rw [h1, Int.neg_tdiv, Int.tdiv_eq_ediv (by omega) (by decide)]
    simp

theorem Microseconds_pos_iff (d : Int) : 0 < Microseconds d ↔ 1000 ≤ d := by
  rw [Microseconds_eq]
  split <;> omega

theorem Microseconds_eq_zero_iff (d : Int) :
    Microseconds d = 0 ↔ -1000 < d ∧ d < 1000 := by
  rw [Microseconds_eq]
  split <;> omega

theorem newItem_nil (now : Int) (val : V) :
    newItem now val [] = { val := val, cachedAt := now, ttlReset := false, ttl := 0 } :=
  rfl

theorem newItem_TTL (now : Int) (val : V) (d : Int) :
    newItem now val [TTL d []] = { val := val, cachedAt := now, ttlReset := false, ttl := d } :=
  rfl

theorem items_addToExpires (c : Cache K V) (k : K) (ttl : Int) :
    (c.addToExpires k ttl).items = c.items := by
  unfold addToExpires
  split <;> rfl

theorem items_Set (c : Cache K V) (k : K) (v : V) (opts : List (CacheItemOption V))
    (now : Int) :
    (c.Set k v opts now).items =
      c.items.insert k (c.applyDefaultTTL (newItem now v opts)) := by
  simp only [Set, items_addToExpires]

theorem lookup_Set_self (c : Cache K V) (k : K) (v : V) (opts : List (CacheItemOption V))
    (now : Int) :
    (c.Set k v opts now).items.lookup k = some (c.applyDefaultTTL (newItem now v opts)) := by
  rw [items_Set, Finmap.lookup_insert]

theorem lookup_Set_ne (c : Cache K V) {k k' : K} (h : k' ≠ k) (v : V)
    (opts : List (CacheItemOption V)) (now : Int) :
    (c.Set k v opts now).items.lookup k' = c.items.lookup k' := by
  rw [items_Set, Finmap.lookup_insert_of_ne _ h]

theorem expires_Set (c : Cache K V) (k : K) (v : V) (opts : List (CacheItemOption V))
    (now : Int) :
    (c.Set k v opts now).expires =
      if Microseconds (c.applyDefaultTTL (newItem now v opts)).ttl > 0 then insert k c.expires
      else c.expires := by
  simp only [Set, addToExpires]
  split <;> rfl

theorem Get_fst [Inhabited V] (c : Cache K V) (k : K) (now : Int) :
    (c.Get k now).1 =
      match c.items.lookup k with
      | none => (default, false)
      | some item => if item.checkTTL now then (item.val, true) else (default, false) := by
  unfold Get
  cases c.items.lookup k with
  | none => rfl
  | some item =>
    by_cases h : item.checkTTL now <;> by_cases r : item.ttlReset <;> simp [h, r]

theorem Get_snd [Inhabited V] (c : Cache K V) (k : K) (now : Int) :
    (c.Get k now).2 =
      match c.items.lookup k with
      | none => c
      | some item =>
        if item.checkTTL now && item.ttlReset then
          { c with items := c.items.insert k { item with cachedAt := now } }
        else c := by
  unfold Get
  cases c.items.lookup k with
  | none => rfl
  | some item =>
    by_cases h : item.checkTTL now <;> by_cases r : item.ttlReset <;> simp [h, r]

theorem keys_insert_of_mem {m : Finmap (fun _ : K => cacheItem V)} {k : K}
    (h : k ∈ m) (item : cacheItem V) : (m.insert k item).keys = m.keys := by
  ext a
  simp only [Finmap.mem_keys, Finmap.mem_insert]
  constructor
  · rintro (rfl | ha)
    · exact h
    · exact ha
  · exact Or.inr

theorem card_keys_insert_of_not_mem {m : Finmap (fun _ : K => cacheItem V)} {k : K}
    (h : k ∉ m) (item : cacheItem V) : (m.insert k item).keys.card = m.keys.card + 1 := by
  have e : (m.insert k item).keys = insert k m.keys := by
    ext a
    simp [Finmap.mem_keys, Finmap.mem_insert]
  rw [e, Finset.card_insert_of_not_mem (by simpa [Finmap.mem_keys] using h)]

/-! ### Get -/

/-- C1: `Get` returns the stored value and `true` exactly when the key is in the table
and its entry passes `checkTTL` at the clock reading; in every other case, also for a
key that was never set, it returns the zero value and `false`. -/
theorem Get_found_iff_alive [Inhabited V] (c : Cache K V) (k : K) (now : Int) :
    (∀ item, c.items.lookup k = some item → item.checkTTL now = true →
        (c.Get k now).1 = (item.val, true)) ∧
    ((c.Get k now).1.2 = true ↔
        ∃ item, c.items.lookup k = some item ∧ item.checkTTL now = true) ∧
    ((c.Get k now).1.2 = false → (c.Get k now).1 = (default, false)) ∧
    (c.items.lookup k = none → (c.Get k now).1 = (default, false)) ∧
    (∀ item, c.items.lookup k = some item → item.checkTTL now = false →
        (c.Get k now).1 = (default, false)) := by
  rw [Get_fst]
  cases hl : c.items.lookup k with
  | none => simp
  | some item => by_cases h : item.checkTTL now <;> simp [h]

/-- C2: on a store without a default TTL, `Set` with no option followed by `Get` of
the same key returns the value and `true` at every clock reading. -/
theorem Set_Get_noTTL [Inhabited V] (c : Cache K V) (k : K) (v : V) (t0 t : Int)
    (h : c.defaultTTL = 0) : ((c.Set k v [] t0).Get k t).1 = (v, true) := by
  rw [Get_fst, lookup_Set_self]
  simp [applyDefaultTTL, newItem_nil, h, Microseconds, cacheItem.checkTTL]
  split <;> simp [cacheItem.checkTTL, Microseconds]

/-- C2, at a concrete input: a value set at clock reading `10` on the empty store is
found a long time later. -/
theorem Set_Get_noTTL_witness :
    (((New ([] : List (CacheOption Nat Nat))).Set 1 7 [] 10).Get 1 1000000000000).1
      = (7, true) :=
  Set_Get_noTTL (New []) 1 7 10 1000000000000 (by decide)

/-- C3 as stated fails: a TTL of 500 nanoseconds is positive, yet the entry set at
clock reading `10` is still found at `5000`, past `10 + 500`. -/
theorem Set_Get_ttl_subMicrosecond_counterexample :
    (0 : Int) < 500 ∧ (10 : Int) + 500 < 5000 ∧
    (((New ([] : List (CacheOption Nat Nat))).Set 1 7 [TTL 500 []] 10).Get 1 5000).1
      = (7, true) := by
  decide

/-- C3, amended: for a per-entry TTL `d` of at least one microsecond
(`d.Microseconds() > 0`) without reset, set at clock reading `t0`, `Get` at every `t`
with `t0 ≤ t ≤ t0 + d` returns the value and `true`, and `Get` at every `t > t0 + d`
returns not-found. -/
theorem Set_Get_ttl_boundary [Inhabited V] (c : Cache K V) (k : K) (v : V) (d t0 t : Int)
    (hd : 0 < Microseconds d) :
    (t0 ≤ t → t ≤ t0 + d → ((c.Set k v [TTL d []] t0).Get k t).1 = (v, true)) ∧
    (t0 + d < t → ((c.Set k v [TTL d []] t0).Get k t).1 = (default, false)) := by
  have hne : Microseconds d ≠ 0 := by omega
  have hitem : ∃ r, c.applyDefaultTTL (newItem t0 v [TTL d []])
      = { val := v, cachedAt := t0, ttlReset := r, ttl := d } := by
    simp only [applyDefaultTTL, newItem_TTL, hne, false_and, if_false]
    split
    · exact ⟨true, rfl⟩
    · exact ⟨false, rfl⟩
  obtain ⟨r, hr⟩ := hitem
  rw [Get_fst, lookup_Set_self, hr]
  constructor
  · intro _ h2
    have : ¬ (t0 + d < t) := by omega
    simp [cacheItem.checkTTL, this]
  · intro h2
    simp [cacheItem.checkTTL, hne, h2]

/-- C3 amended, at a concrete input: a TTL of one second set at `10s` is found at the
boundary `11s` and not found one nanosecond later. -/
theorem Set_Get_ttl_boundary_witness :
    (((New ([] : List (CacheOption Nat Nat))).Set 1 7 [TTL 1000000000 []]
        10000000000).Get 1 11000000000).1 = (7, true) ∧
    (((New ([] : List (CacheOption Nat Nat))).Set 1 7 [TTL 1000000000 []]
        10000000000).Get 1 11000000001).1 = (default, false) :=
  ⟨(Set_Get_ttl_boundary (New []) 1 7 1000000000 10000000000 11000000000 (by decide)).1
      (by decide) (by decide),
   (Set_Get_ttl_boundary (New []) 1 7 1000000000 10000000000 11000000001 (by decide)).2
      (by decide)⟩

/-- C4: `Get` at `t1` on an alive entry with reset-on-read stores `t1` as its
`cachedAt` and keeps its value, TTL and reset flag; a following `Get` at any `t2` with
`t1 ≤ t2 ≤ t1 + ttl` then returns found, whatever the original `cachedAt` was. -/
theorem Get_reset_extends [Inhabited V] (c : Cache K V) (k : K) (item : cacheItem V)
    (t1 : Int) (hl : c.items.lookup k = some item) (hr : item.ttlReset = true)
    (ha : item.checkTTL t1 = true) :
    (c.Get k t1).2.items.lookup k = some { item with cachedAt := t1 } ∧
    (∀ t2, t1 ≤ t2 → t2 ≤ t1 + item.ttl →
        ((c.Get k t1).2.Get k t2).1 = (item.val, true)) := by
  have hs : (c.Get k t1).2.items.lookup k = some { item with cachedAt := t1 } := by
    rw [Get_snd, hl]
    simp [ha, hr, Finmap.lookup_insert]
  refine ⟨hs, ?_⟩
  intro t2 _ h2
  rw [Get_fst, hs]
  have : ¬ (t1 + item.ttl < t2) := by omega
  simp [cacheItem.checkTTL, this]

/-- C4, at a concrete input: an entry with a resetting TTL of `100000` set at `10000`
and read at `60000` is found at `150000`, later than `10000 + 100000`. -/
theorem Get_reset_extends_witness :
    (10000 : Int) + 100000 < 150000 ∧
    (((((New ([] : List (CacheOption Nat Nat))).Set 1 7 [TTLWithReset 100000]
        10000).Get 1 60000).2).Get 1 150000).1 = (7, true) :=
  ⟨by decide,
   (Get_reset_extends ((New ([] : List (CacheOption Nat Nat))).Set 1 7
      [TTLWithReset 100000] 10000) 1
      { val := 7, cachedAt := 10000, ttlReset := true, ttl := 100000 } 60000
      (by decide) (by decide) (by decide)).2 150000 (by decide) (by decide)⟩

/-- C5: `Get` never changes the key set of the table, the expiring-keys index, the
entry of another key or the store defaults; when the key is absent, or its entry is
expired, or its entry has no reset-on-read, `Get` leaves the whole state unchanged. -/
theorem Get_frame [Inhabited V] (c : Cache K V) (k : K) (now : Int) :
    (c.Get k now).2.items.keys = c.items.keys ∧
    (c.Get k now).2.expires = c.expires ∧
    (∀ k', k' ≠ k → (c.Get k now).2.items.lookup k' = c.items.lookup k') ∧
    (c.Get k now).2.pollInterval = c.pollInterval ∧
    (c.Get k now).2.defaultTTL = c.defaultTTL ∧
    (c.Get k now).2.defaultTTLReset = c.defaultTTLReset ∧
    (c.items.lookup k = none → (c.Get k now).2 = c) ∧
    (∀ item, c.items.lookup k = some item →
        item.checkTTL now = false ∨ item.ttlReset = false → (c.Get k now).2 = c) := by
  rw [Get_snd]
  cases hl : c.items.lookup k with
  | none => simp
  | some item =>
    have hmem : k ∈ c.items := Finmap.mem_of_lookup_eq_some hl
    by_cases h : item.checkTTL now <;> by_cases r : item.ttlReset
    · simp only [h, r, Bool.and_self, if_true]
      refine ⟨keys_insert_of_mem hmem _, trivial, ?_, trivial, trivial, trivial, by simp,
        by simp [h, r]⟩
      intro k' hk'
      exact Finmap.lookup_insert_of_ne _ hk'
    all_goals simp [h, r]

/-! ### Set -/

/-- C6: the entry `Set` stores for a key is the fresh item with the store defaults
applied, the same in every store with the same defaults whether or not the key held an
entry before; the table grows by one exactly when the key was absent; the entry of
every other key is unchanged. -/
theorem Set_full_replace (c : Cache K V) (k : K) (v : V) (opts : List (CacheItemOption V))
    (now : Int) :
    (c.Set k v opts now).items.lookup k = some (c.applyDefaultTTL (newItem now v opts)) ∧
    (∀ c' : Cache K V, c'.defaultTTL = c.defaultTTL →
        c'.defaultTTLReset = c.defaultTTLReset →
        (c'.Set k v opts now).items.lookup k = (c.Set k v opts now).items.lookup k) ∧
    (k ∉ c.items → (c.Set k v opts now).Count = c.Count + 1) ∧
    (k ∈ c.items → (c.Set k v opts now).Count = c.Count) ∧
    (∀ k', k' ≠ k → (c.Set k v opts now).items.lookup k' = c.items.lookup k') := by
  refine ⟨lookup_Set_self c k v opts now, ?_, ?_, ?_, ?_⟩
  · intro c' h1 h2
    rw [lookup_Set_self, lookup_Set_self]
    simp only [applyDefaultTTL, h1, h2]
  · intro h
    simp only [Count, items_Set]
    exact card_keys_insert_of_not_mem h _
  · intro h
    simp only [Count, items_Set]
    rw [keys_insert_of_mem h]
  · intro k' hk'
    exact lookup_Set_ne c hk' v opts now

/-- C7 as stated fails: with a default TTL of one second, a per-entry TTL of 500
nanoseconds is nonzero, yet the stored TTL is the default. -/
theorem Set_defaultTTL_overrides_counterexample :
    (newItem 0 (7 : Nat) [TTL 500 []]).ttl = 500 ∧ (500 : Int) ≠ 0 ∧
    ((New ([WithDefaultTTL 1000000000 []] : List (CacheOption Nat Nat))).Set 1 7
        [TTL 500 []] 0).items.lookup 1
      = some { val := 7, cachedAt := 0, ttlReset := false, ttl := 1000000000 } := by
  decide

/-- C7, amended: with default TTL `D` and default reset flag `R`, the TTL stored by
`Set` is the per-entry TTL when its `Microseconds()` is nonzero, is `D` when the
per-entry `Microseconds()` is zero and `D.Microseconds() > 0`, and is the per-entry TTL
otherwise; the stored reset flag is the per-entry flag or `R`. -/
theorem Set_defaultTTL_policy (c : Cache K V) (k : K) (v : V)
    (opts : List (CacheItemOption V)) (now : Int) :
    ∃ item, (c.Set k v opts now).items.lookup k = some item ∧
      (Microseconds (newItem now v opts).ttl ≠ 0 → item.ttl = (newItem now v opts).ttl) ∧
      (Microseconds (newItem now v opts).ttl = 0 → 0 < Microseconds c.defaultTTL →
        item.ttl = c.defaultTTL) ∧
      (Microseconds (newItem now v opts).ttl = 0 → ¬ 0 < Microseconds c.defaultTTL →
        item.ttl = (newItem now v opts).ttl) ∧
      item.ttlReset = ((newItem now v opts).ttlReset || c.defaultTTLReset) ∧
      item.val = (newItem now v opts).val ∧
      item.cachedAt = (newItem now v opts).cachedAt := by
  refine ⟨_, lookup_Set_self c k v opts now, ?_⟩
  generalize newItem now v opts = it
  unfold applyDefaultTTL
  by_cases h1 : Microseconds it.ttl = 0 <;> by_cases h2 : 0 < Microseconds c.defaultTTL <;>
    cases hr : it.ttlReset <;> cases hR : c.defaultTTLReset <;> simp [h1, h2, hr, hR]

/-- C8 fails on the code, in two ways: after `Set` with a TTL of 500 nanoseconds the
final TTL is nonzero and the key is not in the index; and after `Set` with a TTL of one
second followed by `Set` without TTL the final TTL is zero and the key is still in the
index, because `Set` never removes a key from it. -/
theorem Set_index_not_maintained :
    (((New ([] : List (CacheOption Nat Nat))).Set 1 7 [TTL 500 []] 0).items.lookup 1
        = some { val := 7, cachedAt := 0, ttlReset := false, ttl := 500 } ∧
      1 ∉ ((New ([] : List (CacheOption Nat Nat))).Set 1 7 [TTL 500 []] 0).expires) ∧
    (1 ∈ ((New ([] : List (CacheOption Nat Nat))).Set 1 7 [TTL 1000000000 []] 0).expires ∧
      (((New ([] : List (CacheOption Nat Nat))).Set 1 7 [TTL 1000000000 []] 0).Set 1 7
          [] 5).items.lookup 1
        = some { val := 7, cachedAt := 5, ttlReset := false, ttl := 0 } ∧
      1 ∈ (((New ([] : List (CacheOption Nat Nat))).Set 1 7 [TTL 1000000000 []] 0).Set 1 7
          [] 5).expires) := by
  decide

/-! ### Delete -/

/-- C9: after `Delete` the key is absent from the table and from the expiring-keys
index and every other key keeps its entry and its index membership; when the key was
absent from both, the state and `Count` are unchanged; deleting twice is deleting
once. -/
theorem Delete_post_idempotent (c : Cache K V) (k : K) :
    k ∉ (c.Delete k).items ∧ k ∉ (c.Delete k).expires ∧
    (∀ k', k' ≠ k → (c.Delete k).items.lookup k' = c.items.lookup k' ∧
        (k' ∈ (c.Delete k).expires ↔ k' ∈ c.expires)) ∧
    (k ∉ c.items → k ∉ c.expires → c.Delete k = c ∧ (c.Delete k).Count = c.Count) ∧
    (c.Delete k).Delete k = c.Delete k ∧
    ((c.Delete k).Delete k).Count = (c.Delete k).Count := by
  have habs : ∀ d : Cache K V, k ∉ d.items → k ∉ d.expires → d.Delete k = d := by
    intro d h1 h2
    ext1
    · apply Finmap.ext_lookup
      intro x
      by_cases hx : x = k
      · subst hx
        simp only [Delete, delete, deleteFromExpires, Finmap.lookup_erase]
        exact (Finmap.lookup_eq_none.mpr h1).symm
      · simp only [Delete, delete, deleteFromExpires, Finmap.lookup_erase_ne hx]
    · simp only [Delete, delete, deleteFromExpires]
      exact Finset.erase_eq_of_not_mem h2
    all_goals rfl
  have h1 : k ∉ (c.Delete k).items := by
    simp only [Delete, delete, deleteFromExpires]
    exact Finmap.not_mem_erase_self
  have h2 : k ∉ (c.Delete k).expires := by
    simp only [Delete, delete, deleteFromExpires]
    exact Finset.not_mem_erase _ _
  have h3 : (c.Delete k).Delete k = c.Delete k := habs _ h1 h2
  refine ⟨h1, h2, ?_, ?_, h3, by rw [h3]⟩
  · intro k' hk'
    constructor
    · simp only [Delete, delete, deleteFromExpires, Finmap.lookup_erase_ne hk']
    · simp only [Delete, delete, deleteFromExpires, Finset.mem_erase]
      tauto
  · intro a b
    have := habs c a b
    exact ⟨this, by rw [this]⟩

/-! ### The sweep -/

theorem sweepStep_eq (clock : K → Int) (k : K) (c : Cache K V) :
    sweepStep clock k c = if c.expired (clock k) k then c.delete k else c := by
  unfold sweepStep expired
  cases c.items.lookup k <;> simp

theorem expired_iff (c : Cache K V) (now : Int) (k : K) :
    c.expired now k = true ↔
      ∃ item, c.items.lookup k = some item ∧ item.checkTTL now = false := by
  unfold expired
  cases c.items.lookup k <;> simp

/-- The state after the loop body has run for the keys of a multiset `m`. -/
theorem foldr_sweepStep (c : Cache K V) (clock : K → Int) (m : Multiset K) :
    (∀ k, (Multiset.foldr (sweepStep clock) c m).items.lookup k =
        if k ∈ m ∧ c.expired (clock k) k = true then none else c.items.lookup k) ∧
    (∀ k, k ∈ (Multiset.foldr (sweepStep clock) c m).expires ↔
        k ∈ c.expires ∧ ¬ (k ∈ m ∧ c.expired (clock k) k = true)) ∧
    (Multiset.foldr (sweepStep clock) c m).pollInterval = c.pollInterval ∧
    (Multiset.foldr (sweepStep clock) c m).defaultTTL = c.defaultTTL ∧
    (Multiset.foldr (sweepStep clock) c m).defaultTTLReset = c.defaultTTLReset := by
  induction m using Multiset.induction_on with
  | empty => simp
  | cons a m ih =>
    obtain ⟨ih1, ih2, ih3, ih4, ih5⟩ := ih
    rw [Multiset.foldr_cons, sweepStep_eq]
    generalize Multiset.foldr (sweepStep clock) c m = r at ih1 ih2 ih3 ih4 ih5 ⊢
    have hra : r.expired (clock a) a = true → c.expired (clock a) a = true ∧ a ∉ m := by
      intro h
      by_cases hc : a ∈ m ∧ c.expired (clock a) a = true
      · have hn : r.items.lookup a = none := by rw [ih1]; simp [hc]
        simp [expired, hn] at h
      · have hsame : r.items.lookup a = c.items.lookup a := by rw [ih1]; simp [hc]
        have he : c.expired (clock a) a = true := by
          simpa [expired, hsame] using h
        exact ⟨he, fun hm => hc ⟨hm, he⟩⟩
    have har : c.expired (clock a) a = true → a ∉ m → r.expired (clock a) a = true := by
      intro he hm
      have hsame : r.items.lookup a = c.items.lookup a := by rw [ih1]; simp [hm]
      simpa [expired, hsame] using he
    by_cases hr : r.expired (clock a) a = true
    · obtain ⟨hca, _⟩ := hra hr
      simp only [hr, if_true]
      refine ⟨?_, ?_, ih3, ih4, ih5⟩
      · intro k
        by_cases hk : k = a
        · subst hk
          simp [delete, deleteFromExpires, Finmap.lookup_erase, hca]
        · simp only [delete, deleteFromExpires, Finmap.lookup_erase_ne hk, ih1,
            Multiset.mem_cons, hk, false_or]
      · intro k
        by_cases hk : k = a
        · subst hk
          simp [delete, deleteFromExpires, hca]
        · simp only [delete, deleteFromExpires, Finset.mem_erase, ih2, Multiset.mem_cons,
            hk, false_or, ne_eq, not_false_eq_true, true_and]
    · have hr' : r.expired (clock a) a = false := by simpa using hr
      simp only [hr', Bool.false_eq_true, if_false]
      have key : ∀ k, (k ∈ a ::ₘ m ∧ c.expired (clock k) k = true) ↔
          (k ∈ m ∧ c.expired (clock k) k = true) := by
        intro k
        constructor
        · rintro ⟨hk, he⟩
          rcases Multiset.mem_cons.mp hk with rfl | hk
          · by_contra hcon
            exact hr (har he (fun hm => hcon ⟨hm, he⟩))
          · exact ⟨hk, he⟩
        · rintro ⟨hk, he⟩
          exact ⟨Multiset.mem_cons_of_mem hk, he⟩
      refine ⟨?_, ?_, ih3, ih4, ih5⟩
      · intro k
        rw [ih1]
        simp only [key]
      · intro k
        rw [ih2, key]

/-- C10 as stated fails: on a store with two indexed entries that both expire after
`1100`, a sweep whose clock reads `1100` at key `1` and `1101` at key `2` removes key `2`
only, so `Count` is `1`; no single clock reading `now` makes the removed keys the
indexed keys that are present and not alive at `now`. -/
theorem deleteExpires_no_single_reading_counterexample :
    (expiryFixture.deleteExpires advancingClock).Count = 1 ∧
    ¬ ∃ now : Int, ∀ k : Nat,
      (k ∈ expiryFixture.items ∧ k ∉ (expiryFixture.deleteExpires advancingClock).items) ↔
      (k ∈ expiryFixture.expires ∧
        ∃ item, expiryFixture.items.lookup k = some item ∧ item.checkTTL now = false) := by
  refine ⟨by decide, ?_⟩
  rintro ⟨now, h⟩
  have l1 : expiryFixture.items.lookup 1
      = some { val := 7, cachedAt := 100, ttlReset := false, ttl := 1000 } := by decide
  have l2 : expiryFixture.items.lookup 2
      = some { val := 8, cachedAt := 100, ttlReset := false, ttl := 1000 } := by decide
  have gone : (2 ∈ expiryFixture.items ∧
      2 ∉ (expiryFixture.deleteExpires advancingClock).items) := by decide
  have kept : 1 ∈ (expiryFixture.deleteExpires advancingClock).items := by decide
  have e1 : 1 ∈ expiryFixture.expires := by decide
  obtain ⟨_, item, hi, hdead⟩ := (h 2).mp gone
  rw [l2] at hi
  rw [← Option.some.inj hi] at hdead
  have hdead1 : ({ val := 7, cachedAt := 100, ttlReset := false, ttl := 1000 } :
      cacheItem Nat).checkTTL now = false := by
    simpa [cacheItem.checkTTL] using hdead
  exact ((h 1).mpr ⟨e1, _, l1, hdead1⟩).2 kept

/-- C10, amended: the keys a sweep removes from the table are exactly the keys that
were in the expiring-keys index, present in the table and not alive at the clock
reading taken when the sweep visited them (all these readings are `now` when the clock
stands still at `now` during the sweep); each such key is afterwards absent from the
table and from the index; `Count` decreases by their number; every other key keeps its
entry and its index membership. -/
theorem deleteExpires_removes_exactly (c : Cache K V) (clock : K → Int) :
    (∀ k, k ∈ c.expires.filter (fun k => c.expired (clock k) k = true) ↔
        k ∈ c.expires ∧ ∃ item, c.items.lookup k = some item ∧ item.checkTTL (clock k) = false) ∧
    (∀ k, (k ∈ c.items ∧ k ∉ (c.deleteExpires clock).items) ↔
        k ∈ c.expires.filter (fun k => c.expired (clock k) k = true)) ∧
    (∀ k, k ∈ c.expires.filter (fun k => c.expired (clock k) k = true) →
        k ∉ (c.deleteExpires clock).items ∧ k ∉ (c.deleteExpires clock).expires) ∧
    (c.deleteExpires clock).Count + (c.expires.filter (fun k => c.expired (clock k) k = true)).card
        = c.Count ∧
    (∀ k, k ∉ c.expires.filter (fun k => c.expired (clock k) k = true) →
        (c.deleteExpires clock).items.lookup k = c.items.lookup k ∧
        (k ∈ (c.deleteExpires clock).expires ↔ k ∈ c.expires)) := by
  obtain ⟨h1, h2, -, -, -⟩ := foldr_sweepStep c clock c.expires.val
  change (∀ k, (c.deleteExpires clock).items.lookup k = _) at h1
  change (∀ k, k ∈ (c.deleteExpires clock).expires ↔ _) at h2
  simp only [Finset.mem_val] at h1 h2
  have hin : ∀ k, c.expired (clock k) k = true → k ∈ c.items := by
    intro k hk
    obtain ⟨item, hl, _⟩ := (expired_iff c (clock k) k).mp hk
    exact Finmap.mem_of_lookup_eq_some hl
  have hmem : ∀ k, k ∈ (c.deleteExpires clock).items ↔
      k ∈ c.items ∧ ¬ (k ∈ c.expires ∧ c.expired (clock k) k = true) := by
    intro k
    rw [← Finmap.lookup_isSome, ← Finmap.lookup_isSome, h1]
    by_cases hk : k ∈ c.expires ∧ c.expired (clock k) k = true <;> simp [hk]
  have hkeys : (c.deleteExpires clock).items.keys =
      c.items.keys \ c.expires.filter (fun k => c.expired (clock k) k = true) := by
    ext k
    simp only [Finmap.mem_keys, hmem, Finset.mem_sdiff, Finset.mem_filter]
  have hsub : c.expires.filter (fun k => c.expired (clock k) k = true) ⊆ c.items.keys := by
    intro k hk
    rw [Finset.mem_filter] at hk
    exact Finmap.mem_keys.mpr (hin k hk.2)
  refine ⟨?_, ?_, ?_, ?_, ?_⟩
  · intro k
    rw [Finset.mem_filter, expired_iff]
  · intro k
    rw [Finset.mem_filter, hmem]
    constructor
    · rintro ⟨hk, hn⟩
      by_contra hcon
      exact hn ⟨hk, hcon⟩
    · rintro ⟨hk, he⟩
      exact ⟨hin k he, fun hn => hn.2 ⟨hk, he⟩⟩
  · intro k hk
    rw [Finset.mem_filter] at hk
    rw [hmem, h2]
    exact ⟨fun hn => hn.2 hk, fun hn => hn.2 hk⟩
  · simp only [Count, hkeys]
    rw [Finset.card_sdiff hsub]
    exact Nat.sub_add_cancel (Finset.card_le_card hsub)
  · intro k hk
    rw [Finset.mem_filter] at hk
    rw [h1, h2]
    simp [hk]

/-- C10 amended, at a concrete input with a clock that stands still at `5000`: of three
keys, one expired and indexed, one without TTL and one indexed and alive, the sweep
removes the first only and `Count` goes from 3 to 2. -/
theorem deleteExpires_removes_exactly_witness :
    (sweepFixture.deleteExpires (fun _ => 5000)).Count + 1 = 3 := by
  have h := (deleteExpires_removes_exactly sweepFixture (fun _ => 5000)).2.2.2.1
  have h1 : (sweepFixture.expires.filter
      (fun k => sweepFixture.expired 5000 k = true)).card = 1 := by decide
  have h2 : sweepFixture.Count = 3 := by decide
  rw [h1, h2] at h
  exact h

/-! ### Entries without TTL, `Count`, and the liveness predicate -/

theorem deleteExpires_lookup (c : Cache K V) (clock : K → Int) (k : K) :
    (c.deleteExpires clock).items.lookup k =
      if k ∈ c.expires ∧ c.expired (clock k) k = true then none else c.items.lookup k := by
  have h := (foldr_sweepStep c clock c.expires.val).1 k
  simpa only [Finset.mem_val] using h

theorem deleteExpires_mem_expires (c : Cache K V) (clock : K → Int) (k : K) :
    k ∈ (c.deleteExpires clock).expires ↔
      k ∈ c.expires ∧ ¬ (k ∈ c.expires ∧ c.expired (clock k) k = true) := by
  have h := (foldr_sweepStep c clock c.expires.val).2.1 k
  simpa only [Finset.mem_val] using h

theorem checkTTL_of_Microseconds_zero (item : cacheItem V) (now : Int)
    (h : Microseconds item.ttl = 0) : item.checkTTL now = true := by
  simp [cacheItem.checkTTL, h]

theorem deleteExpires_lookup_of_alive (c : Cache K V) (clock : K → Int) (k : K)
    (item : cacheItem V) (hl : c.items.lookup k = some item)
    (ha : item.checkTTL (clock k) = true) :
    (c.deleteExpires clock).items.lookup k = some item := by
  rw [deleteExpires_lookup]
  have : c.expired (clock k) k = false := by simp [expired, hl, ha]
  simp [this, hl]

theorem applyDefaultTTL_val (c : Cache K V) (item : cacheItem V) :
    (c.applyDefaultTTL item).val = item.val ∧
    (c.applyDefaultTTL item).cachedAt = item.cachedAt := by
  simp only [applyDefaultTTL]
  by_cases h1 : Microseconds item.ttl = 0 ∧ Microseconds c.defaultTTL > 0 <;>
    by_cases h2 : (!item.ttlReset && c.defaultTTLReset) = true <;> simp [h1, h2]

theorem applyDefaultTTL_ttl_of_ne (c : Cache K V) (item : cacheItem V)
    (h : ¬ (Microseconds item.ttl = 0 ∧ Microseconds c.defaultTTL > 0)) :
    (c.applyDefaultTTL item).ttl = item.ttl := by
  simp only [applyDefaultTTL]
  by_cases h2 : (!item.ttlReset && c.defaultTTLReset) = true <;> simp [h, h2]

theorem newItem_TTL_fields (now : Int) (val : V) (d : Int) (reset : List Bool) :
    (newItem now val [TTL d reset]).val = val ∧
    (newItem now val [TTL d reset]).cachedAt = now ∧
    (newItem now val [TTL d reset]).ttl = d := by
  cases reset <;> exact ⟨rfl, rfl, rfl⟩

theorem keys_Get [Inhabited V] (c : Cache K V) (k : K) (now : Int) :
    (c.Get k now).2.items.keys = c.items.keys := by
  rw [Get_snd]
  cases hl : c.items.lookup k with
  | none => rfl
  | some item =>
    by_cases h : (item.checkTTL now && item.ttlReset) = true
    · simp only [h, if_true]
      exact keys_insert_of_mem (Finmap.mem_of_lookup_eq_some hl) _
    · simp [h]

theorem checkTTL_false_lt (i : cacheItem V) (now : Int) (h : i.checkTTL now = false) :
    Microseconds i.ttl ≠ 0 ∧ i.cachedAt + i.ttl < now := by
  simp only [cacheItem.checkTTL] at h
  by_cases hz : Microseconds i.ttl = 0
  · simp [hz] at h
  · exact ⟨hz, by simpa [hz] using h⟩

/-- C11: an entry whose TTL is zero is still stored, identical, after a sweep at any
clock readings, however late; this holds in every store state, the reachable ones
included. -/
theorem deleteExpires_keeps_noTTL (c : Cache K V) (clock : K → Int) (k : K)
    (item : cacheItem V) (hl : c.items.lookup k = some item) (h0 : item.ttl = 0) :
    (c.deleteExpires clock).items.lookup k = some item :=
  deleteExpires_lookup_of_alive c clock k item hl
    (checkTTL_of_Microseconds_zero item (clock k) (by rw [h0]; rfl))

/-- C11, at a concrete input: key `2` of the fixture store has no TTL and is still there
after a sweep a thousand seconds later. -/
theorem deleteExpires_keeps_noTTL_witness :
    (sweepFixture.deleteExpires (fun _ => 1000000000000)).items.lookup 2
      = some { val := 8, cachedAt := 0, ttlReset := false, ttl := 0 } :=
  deleteExpires_keeps_noTTL sweepFixture (fun _ => 1000000000000) 2
    { val := 8, cachedAt := 0, ttlReset := false, ttl := 0 } (by decide) (by decide)

/-- C12: `Count` is the number of keys of the table and `Get` never changes it; a key
set on an empty store with a TTL of at least one microsecond is not found by `Get` after
its expiry while `Count` is still `1`, before and after that `Get`. -/
theorem Count_counts_unswept [Inhabited V] (c : Cache K V) (k : K) (v : V) (d : Int)
    (reset : List Bool) (t0 t : Int) (hempty : c.items = ∅) (hd : 0 < Microseconds d)
    (ht : t0 + d < t) :
    ((c.Set k v [TTL d reset] t0).Get k t).1 = (default, false) ∧
    (c.Set k v [TTL d reset] t0).Count = 1 ∧
    ((c.Set k v [TTL d reset] t0).Get k t).2.Count = 1 ∧
    (∀ (c' : Cache K V) (k' : K) (now : Int),
        c'.Count = c'.items.keys.card ∧ (c'.Get k' now).2.Count = c'.Count) := by
  have hcount : ∀ (c' : Cache K V) (k' : K) (now : Int),
      c'.Count = c'.items.keys.card ∧ (c'.Get k' now).2.Count = c'.Count := by
    intro c' k' now
    refine ⟨rfl, ?_⟩
    unfold Count
    rw [keys_Get]
  have hne : Microseconds d ≠ 0 := by omega
  obtain ⟨hv, hc, httl⟩ := newItem_TTL_fields t0 v d reset
  have hfinal : (c.applyDefaultTTL (newItem t0 v [TTL d reset])).ttl = d := by
    rw [applyDefaultTTL_ttl_of_ne, httl]
    rw [httl]
    exact fun h => hne h.1
  have hcached : (c.applyDefaultTTL (newItem t0 v [TTL d reset])).cachedAt = t0 := by
    rw [(applyDefaultTTL_val c _).2, hc]
  have h1 : (c.Set k v [TTL d reset] t0).Count = 1 := by
    have hk : k ∉ c.items := by rw [hempty]; exact Finmap.not_mem_empty
    simp only [Count, items_Set]
    rw [card_keys_insert_of_not_mem hk]
    simp [hempty]
  refine ⟨?_, h1, ?_, hcount⟩
  · rw [Get_fst, lookup_Set_self]
    simp [cacheItem.checkTTL, hfinal, hcached, hne, ht]
  · rw [(hcount _ k t).2, h1]

/-- C12, at a concrete input: a key set at `0` with a TTL of one second on the empty
store is not found at `5s`, and `Count` is `1`. -/
theorem Count_counts_unswept_witness :
    (((New ([] : List (CacheOption Nat Nat))).Set 1 7 [TTL 1000000000 []] 0).Get 1
        5000000000).1 = (default, false) ∧
    ((New ([] : List (CacheOption Nat Nat))).Set 1 7 [TTL 1000000000 []] 0).Count = 1 :=
  ⟨(Count_counts_unswept (New []) 1 7 1000000000 [] 0 5000000000 (by decide) (by decide)
      (by decide)).1,
   (Count_counts_unswept (New []) 1 7 1000000000 [] 0 5000000000 (by decide) (by decide)
      (by decide)).2.1⟩

/-- C13 fails on the code: on a store without default TTL, the entry set with
`TTL(-1s)` at clock reading `10s` is not found by `Get` at `10s`, although the claim
says a negative TTL means no TTL; `addToExpires` does not index it, so a sweep a
thousand seconds later leaves the dead entry in the table and `Count` stays `1`. -/
theorem Set_negative_TTL_dead_and_unswept :
    (New ([] : List (CacheOption Nat Nat))).defaultTTL = 0 ∧
    (((New ([] : List (CacheOption Nat Nat))).Set 1 7 [TTL (-1000000000) []]
        10000000000).Get 1 10000000000).1 = (default, false) ∧
    1 ∉ ((New ([] : List (CacheOption Nat Nat))).Set 1 7 [TTL (-1000000000) []]
        10000000000).expires ∧
    (((New ([] : List (CacheOption Nat Nat))).Set 1 7 [TTL (-1000000000) []]
        10000000000).deleteExpires (fun _ => 1010000000000)).items.lookup 1
      = some { val := 7, cachedAt := 10000000000, ttlReset := false, ttl := -1000000000 } ∧
    (((New ([] : List (CacheOption Nat Nat))).Set 1 7 [TTL (-1000000000) []]
        10000000000).deleteExpires (fun _ => 1010000000000)).Count = 1 := by
  decide

/-- C14 fails on the code: a configured interval of minus one second is non-positive,
yet the interval `Run` hands to `pollWork` is that interval and not the default of one
second (and `time.NewTicker` panics on it). -/
theorem Run_interval_negative_kept :
    (-1000000000 : Int) ≤ 0 ∧
    (New ([WithPollInterval (-1000000000)] : List (CacheOption Nat Nat))).pollInterval
      = -1000000000 ∧
    (New ([WithPollInterval (-1000000000)] : List (CacheOption Nat Nat))).Run_interval
      = -1000000000 ∧
    (-1000000000 : Int) ≠ defaultPollInterval := by
  decide

/-- C18 as stated fails: an entry cached at `0` with a TTL of 500 nanoseconds passes
`checkTTL` at `1000`, although its TTL is not zero and `1000` is later than `0 + 500`. -/
theorem checkTTL_counterexample :
    ({ val := 7, cachedAt := 0, ttlReset := false, ttl := 500 } : cacheItem Nat).checkTTL
        1000 = true ∧
    ¬ ((500 : Int) = 0 ∨ (1000 : Int) ≤ 0 + 500) := by
  decide

/-- C18, amended: `checkTTL(now)` is true if and only if `ttl.Microseconds() == 0` or
`now ≤ cachedAt + ttl`; the boundary instant `cachedAt + ttl` counts as alive and only
strictly later instants count as expired. -/
theorem checkTTL_iff (i : cacheItem V) (now : Int) :
    (i.checkTTL now = true ↔ Microseconds i.ttl = 0 ∨ now ≤ i.cachedAt + i.ttl) ∧
    i.checkTTL (i.cachedAt + i.ttl) = true ∧
    (i.checkTTL now = false → i.cachedAt + i.ttl < now) := by
  refine ⟨?_, ?_, ?_⟩
  · simp [cacheItem.checkTTL]
  · simp [cacheItem.checkTTL]
  · simp only [cacheItem.checkTTL]
    by_cases h : Microseconds i.ttl = 0 <;> simp [h]

/-- C20: a sweep does not change what `Get(k)` returns at `now'` when the reading the
sweep took for `k` is not later than `now'`; in particular, for a sweep at `now` (a clock
standing still at `now`) and `now ≤ now'`, the result on the swept state is the result on
the state itself. -/
theorem deleteExpires_invisible_to_Get [Inhabited V] (c : Cache K V) (k : K)
    (clock : K → Int) (now' : Int) (h : clock k ≤ now') :
    ((c.deleteExpires clock).Get k now').1 = (c.Get k now').1 := by
  rw [Get_fst, Get_fst, deleteExpires_lookup]
  by_cases hc : k ∈ c.expires ∧ c.expired (clock k) k = true
  · obtain ⟨item, hl, hdead⟩ := (expired_iff c (clock k) k).mp hc.2
    obtain ⟨hne, hlt⟩ := checkTTL_false_lt item (clock k) hdead
    have hdead' : item.checkTTL now' = false := by
      have : item.cachedAt + item.ttl < now' := by omega
      simp [cacheItem.checkTTL, hne, this]
    simp [hc, hl, hdead']
  · simp [hc]

/-- C20, at a concrete input: key `1` of the fixture store, expired and swept at `5000`,
is not found at `6000` on the swept store, as on the store itself. -/
theorem deleteExpires_invisible_to_Get_witness :
    ((sweepFixture.deleteExpires (fun _ => 5000)).Get 1 6000).1
      = (sweepFixture.Get 1 6000).1 :=
  deleteExpires_invisible_to_Get sweepFixture 1 (fun _ => 5000) 6000 (by decide)

/-! ### Locking -/

/-- C16 fails on the code: `Get` holds only the shared section of the lock (`RLock`),
and on an alive entry with reset-on-read it writes the refreshed entry into the table,
while `Set`, `Delete` and the sweep hold the exclusive section for their writes. -/
theorem Get_reset_writes_in_shared_section :
    Method.lock Method.Get = LockSection.shared ∧
    Method.lock Method.Set = LockSection.exclusive ∧
    Method.lock Method.Delete = LockSection.exclusive ∧
    Method.lock Method.deleteExpires = LockSection.exclusive ∧
    ((New ([] : List (CacheOption Nat Nat))).Set 1 7 [TTLWithReset 100000] 10000).items.lookup 1
      = some { val := 7, cachedAt := 10000, ttlReset := true, ttl := 100000 } ∧
    ((((New ([] : List (CacheOption Nat Nat))).Set 1 7 [TTLWithReset 100000] 10000).Get 1
        60000).2).items.lookup 1
      = some { val := 7, cachedAt := 60000, ttlReset := true, ttl := 100000 } := by
  decide

/-! ### Invariants of the reachable states -/

theorem expires_Get [Inhabited V] (c : Cache K V) (k : K) (now : Int) :
    (c.Get k now).2.expires = c.expires := by
  rw [Get_snd]
  cases c.items.lookup k with
  | none => rfl
  | some item =>
    by_cases h : (item.checkTTL now && item.ttlReset) = true <;> simp [h]

theorem lookup_Get_ttl [Inhabited V] (c : Cache K V) (k k' : K) (now : Int)
    (item' : cacheItem V) (h : (c.Get k now).2.items.lookup k' = some item') :
    ∃ item, c.items.lookup k' = some item ∧ item'.ttl = item.ttl := by
  rw [Get_snd] at h
  cases hl : c.items.lookup k with
  | none =>
    rw [hl] at h
    exact ⟨item', h, rfl⟩
  | some item =>
    rw [hl] at h
    by_cases hc : (item.checkTTL now && item.ttlReset) = true
    · simp only [hc, if_true] at h
      by_cases hk : k' = k
      · subst hk
        rw [Finmap.lookup_insert] at h
        refine ⟨item, hl, ?_⟩
        rw [← Option.some.inj h]
      · rw [Finmap.lookup_insert_of_ne _ hk] at h
        exact ⟨item', h, rfl⟩
    · simp only [hc] at h
      exact ⟨item', h, rfl⟩

theorem expires_toOption (o : NewOption K V) (c : Cache K V) :
    (o.toOption c).expires = c.expires := by
  cases o with
  | WithSize size => rfl
  | WithValues m now =>
    simp only [NewOption.toOption, WithValues]
    split <;> rfl
  | WithDefaultTTL ttl reset =>
    simp only [NewOption.toOption, WithDefaultTTL]
    cases reset with
    | nil => rfl
    | cons r rs =>
      simp only
      split <;> rfl
  | WithPollInterval interval => rfl

theorem expires_foldl_toOption (os : List (NewOption K V)) (c : Cache K V) :
    ((os.map NewOption.toOption).foldl (fun c opt => opt c) c).expires = c.expires := by
  induction os generalizing c with
  | nil => rfl
  | cons o os ih =>
    simp only [List.map_cons, List.foldl_cons]
    rw [ih, expires_toOption]

theorem expires_New (os : List (NewOption K V)) :
    (New (os.map NewOption.toOption)).expires = ∅ := by
  simp only [New]
  exact expires_foldl_toOption os _

theorem lookup_preload (now : Int) (m : Finmap (fun _ : K => V)) (s : Multiset K) (k : K) :
    (Multiset.foldr (preloadStep now m) ∅ s).lookup k =
      if k ∈ s then (m.lookup k).map (fun v => newItem now v []) else none := by
  induction s using Multiset.induction_on with
  | empty => simp
  | cons a s ih =>
    rw [Multiset.foldr_cons]
    generalize Multiset.foldr (preloadStep now m) ∅ s = r at ih ⊢
    unfold preloadStep
    by_cases hk : k = a
    · subst hk
      cases hm : m.lookup k with
      | none => simp [ih, hm]
      | some v => simp [hm]
    · cases hm : m.lookup a with
      | none => simp [ih, hk]
      | some v => simp [ih, hk, Finmap.lookup_insert_of_ne _ hk]

theorem newCacheMapIfNil_eq (m : Finmap (fun _ : K => cacheItem V)) (size : Int) :
    newCacheMapIfNil m size = m := by
  unfold newCacheMapIfNil
  split
  · rfl
  · next h =>
    have hk : m.keys = ∅ := Finset.card_eq_zero.mp (by omega)
    apply Finmap.ext_lookup
    intro x
    rw [Finmap.lookup_empty]
    symm
    rw [Finmap.lookup_eq_none, ← Finmap.mem_keys, hk]
    exact Finset.not_mem_empty x

theorem items_New (os : List (NewOption K V)) :
    (New (os.map NewOption.toOption)).items =
      ((os.map NewOption.toOption).foldl (fun c opt => opt c)
        ({ items := ∅, expires := ∅, pollInterval := 0, defaultTTL := 0,
           defaultTTLReset := false } : Cache K V)).items := by
  simp only [New, newCacheMapIfNil_eq]

theorem items_toOption_noTTL (o : NewOption K V) (c : Cache K V)
    (h : ∀ k item, c.items.lookup k = some item → item.ttl = 0 ∧ item.ttlReset = false) :
    ∀ k item, (o.toOption c).items.lookup k = some item →
      item.ttl = 0 ∧ item.ttlReset = false := by
  cases o with
  | WithSize size =>
    simpa only [NewOption.toOption, WithSize, newCacheMapIfNil_eq] using h
  | WithValues m now =>
    simp only [NewOption.toOption, WithValues]
    split
    · exact h
    · intro k item hl
      simp only [lookup_preload] at hl
      split at hl
      · cases hm : m.lookup k with
        | none => simp [hm] at hl
        | some v =>
          simp only [hm, Option.map_some', Option.some.injEq] at hl
          rw [← hl]
          exact ⟨rfl, rfl⟩
      · exact absurd hl (by simp)
  | WithDefaultTTL ttl reset =>
    simp only [NewOption.toOption, WithDefaultTTL]
    cases reset with
    | nil => exact h
    | cons r rs =>
      simp only
      split <;> exact h
  | WithPollInterval interval => exact h

theorem items_foldl_toOption_noTTL (os : List (NewOption K V)) (c : Cache K V)
    (h : ∀ k item, c.items.lookup k = some item → item.ttl = 0 ∧ item.ttlReset = false) :
    ∀ k item, ((os.map NewOption.toOption).foldl (fun c opt => opt c) c).items.lookup k
      = some item → item.ttl = 0 ∧ item.ttlReset = false := by
  induction os generalizing c with
  | nil => exact h
  | cons o os ih =>
    simp only [List.map_cons, List.foldl_cons]
    exact ih _ (items_toOption_noTTL o c h)

theorem items_New_noTTL (os : List (NewOption K V)) :
    ∀ k item, (New (os.map NewOption.toOption)).items.lookup k = some item →
      item.ttl = 0 ∧ item.ttlReset = false := by
  rw [items_New]
  apply items_foldl_toOption_noTTL
  intro k item hl
  simp [Finmap.lookup_empty] at hl

theorem run_expires_subset [Inhabited V] (c : Cache K V) (call : Call K V)
    (h : ∀ k, k ∈ c.expires → k ∈ c.items) :
    ∀ k, k ∈ (Call.run c call).expires → k ∈ (Call.run c call).items := by
  intro k hk
  cases call with
  | Get key now =>
    simp only [Call.run, expires_Get] at hk ⊢
    rw [← Finmap.mem_keys, keys_Get, Finmap.mem_keys]
    exact h k hk
  | Set key val opts now =>
    simp only [Call.run, expires_Set, items_Set, Finmap.mem_insert] at hk ⊢
    split at hk
    · rcases Finset.mem_insert.mp hk with rfl | hk
      · exact Or.inl rfl
      · exact Or.inr (h k hk)
    · exact Or.inr (h k hk)
  | Delete key =>
    simp only [Call.run, Delete, delete, deleteFromExpires, Finset.mem_erase,
      Finmap.mem_erase] at hk ⊢
    exact ⟨hk.1, h k hk.2⟩
  | deleteExpires clock =>
    simp only [Call.run] at hk ⊢
    rw [deleteExpires_mem_expires] at hk
    rw [← Finmap.lookup_isSome, deleteExpires_lookup, if_neg hk.2, Finmap.lookup_isSome]
    exact h k hk.1

theorem run_expirable_indexed [Inhabited V] (c : Cache K V) (call : Call K V)
    (h : ∀ k item, c.items.lookup k = some item → 0 < Microseconds item.ttl →
      k ∈ c.expires) :
    ∀ k item, (Call.run c call).items.lookup k = some item → 0 < Microseconds item.ttl →
      k ∈ (Call.run c call).expires := by
  intro k item hl hpos
  cases call with
  | Get key now =>
    simp only [Call.run, expires_Get] at hl ⊢
    obtain ⟨item0, hl0, httl⟩ := lookup_Get_ttl c key k now item hl
    exact h k item0 hl0 (by rw [← httl]; exact hpos)
  | Set key val opts now =>
    simp only [Call.run] at hl ⊢
    rw [expires_Set]
    by_cases hk : k = key
    · subst hk
      rw [lookup_Set_self] at hl
      have hi := Option.some.inj hl
      rw [hi, if_pos hpos]
      exact Finset.mem_insert_self _ _
    · rw [lookup_Set_ne c hk] at hl
      have := h k item hl hpos
      split
      · exact Finset.mem_insert_of_mem this
      · exact this
  | Delete key =>
    simp only [Call.run, Delete, delete, deleteFromExpires, Finset.mem_erase] at hl ⊢
    by_cases hk : k = key
    · subst hk
      rw [Finmap.lookup_erase] at hl
      exact absurd hl (by simp)
    · rw [Finmap.lookup_erase_ne hk] at hl
      exact ⟨hk, h k item hl hpos⟩
  | deleteExpires clock =>
    simp only [Call.run] at hl ⊢
    rw [deleteExpires_lookup] at hl
    rw [deleteExpires_mem_expires]
    by_cases hc : k ∈ c.expires ∧ c.expired (clock k) k = true
    · rw [if_pos hc] at hl
      exact absurd hl (by simp)
    · rw [if_neg hc] at hl
      exact ⟨h k item hl hpos, hc⟩

/-- C17: in every state reached from `New` with any options through any sequence of
`Get`, `Set`, `Delete` and sweeps at any clock readings, every key of the expiring-keys
index is a key of the table. -/
theorem expires_subset_items [Inhabited V] (os : List (NewOption K V))
    (calls : List (Call K V)) :
    ∀ k, k ∈ (runCalls os calls).expires → k ∈ (runCalls os calls).items := by
  have key : ∀ (cs : List (Call K V)) (c : Cache K V),
      (∀ k, k ∈ c.expires → k ∈ c.items) →
      ∀ k, k ∈ (cs.foldl Call.run c).expires → k ∈ (cs.foldl Call.run c).items := by
    intro cs
    induction cs with
    | nil => exact fun c h => h
    | cons call cs ih =>
      intro c h
      rw [List.foldl_cons]
      exact ih _ (run_expires_subset c call h)
  apply key
  intro k hk
  rw [expires_New] at hk
  exact absurd hk (Finset.not_mem_empty k)

/-- C17, at a concrete input: after a `Set` with a TTL of one second, a `Get`, a sweep
and a `Set` of another key, key `1` is in the index and therefore in the table. -/
theorem expires_subset_items_witness :
    1 ∈ (runCalls ([] : List (NewOption Nat Nat))
      [Call.Set 1 7 [TTL 1000000000 []] 0, Call.Get 1 5, Call.deleteExpires (fun _ => 10),
        Call.Set 2 8 [] 20]).items :=
  expires_subset_items ([] : List (NewOption Nat Nat))
    [Call.Set 1 7 [TTL 1000000000 []] 0, Call.Get 1 5, Call.deleteExpires (fun _ => 10),
      Call.Set 2 8 [] 20] 1 (by decide)

/-- C19: in every state reached from `New` with any options through any sequence of
`Get`, `Set`, `Delete` and sweeps, every key whose entry has a TTL of at least one
microsecond is in the expiring-keys index; so a sweep that visits it after its expiry
removes it. -/
theorem expirable_entries_indexed [Inhabited V] (os : List (NewOption K V))
    (calls : List (Call K V)) :
    (∀ k item, (runCalls os calls).items.lookup k = some item →
        0 < Microseconds item.ttl → k ∈ (runCalls os calls).expires) ∧
    (∀ k item (clock : K → Int), (runCalls os calls).items.lookup k = some item →
        0 < Microseconds item.ttl → item.cachedAt + item.ttl < clock k →
        k ∉ ((runCalls os calls).deleteExpires clock).items) := by
  have key : ∀ (cs : List (Call K V)) (c : Cache K V),
      (∀ k item, c.items.lookup k = some item → 0 < Microseconds item.ttl →
        k ∈ c.expires) →
      ∀ k item, (cs.foldl Call.run c).items.lookup k = some item →
        0 < Microseconds item.ttl → k ∈ (cs.foldl Call.run c).expires := by
    intro cs
    induction cs with
    | nil => exact fun c h => h
    | cons call cs ih =>
      intro c h
      rw [List.foldl_cons]
      exact ih _ (run_expirable_indexed c call h)
  have inv : ∀ k item, (runCalls os calls).items.lookup k = some item →
      0 < Microseconds item.ttl → k ∈ (runCalls os calls).expires := by
    apply key
    intro k item hl hpos
    have h0 := (items_New_noTTL os k item hl).1
    rw [h0] at hpos
    exact absurd hpos (by decide)
  refine ⟨inv, ?_⟩
  intro k item clock hl hpos hlt
  have hmem := inv k item hl hpos
  have hne : Microseconds item.ttl ≠ 0 := by omega
  have hexp : (runCalls os calls).expired (clock k) k = true := by
    simp [expired, hl, cacheItem.checkTTL, hne, hlt]
  rw [← Finmap.lookup_isSome, deleteExpires_lookup, if_pos ⟨hmem, hexp⟩]
  simp

/-! ### Preload -/

theorem items_toOption_of_not_WithValues (o : NewOption K V) (c : Cache K V)
    (h : o.isWithValues = false) : (o.toOption c).items = c.items := by
  cases o with
  | WithSize size => simp only [NewOption.toOption, WithSize, newCacheMapIfNil_eq]
  | WithValues m now => simp [NewOption.isWithValues] at h
  | WithDefaultTTL ttl reset =>
    simp only [NewOption.toOption, WithDefaultTTL]
    cases reset with
    | nil => rfl
    | cons r rs =>
      simp only
      split <;> rfl
  | WithPollInterval interval => rfl

theorem items_foldl_of_not_WithValues (os : List (NewOption K V)) (c : Cache K V)
    (h : ∀ o ∈ os, o.isWithValues = false) :
    ((os.map NewOption.toOption).foldl (fun c opt => opt c) c).items = c.items := by
  induction os generalizing c with
  | nil => rfl
  | cons o os ih =>
    simp only [List.map_cons, List.foldl_cons]
    rw [ih _ (fun o' ho' => h o' (List.mem_cons_of_mem _ ho')),
      items_toOption_of_not_WithValues o c (h o (List.mem_cons_self _ _))]

theorem lookup_New_WithValues (m : Finmap (fun _ : K => V)) (now : Int)
    (pre post : List (NewOption K V)) (hm : m.keys.card ≠ 0)
    (hpost : ∀ o ∈ post, o.isWithValues = false) (k : K) :
    (New ((pre ++ NewOption.WithValues m now :: post).map NewOption.toOption)).items.lookup k
      = (m.lookup k).map (fun v => newItem now v []) := by
  rw [items_New]
  simp only [List.map_append, List.map_cons, List.foldl_append, List.foldl_cons]
  rw [items_foldl_of_not_WithValues post _ hpost]
  simp only [NewOption.toOption, WithValues, hm, if_false, lookup_preload, Finset.mem_val,
    Finmap.mem_keys]
  by_cases hk : k ∈ m
  · simp [hk]
  · simp [hk, Finmap.lookup_eq_none.mpr hk]

/-- C15: a store built by `New` with `WithValues(m)` for a non-empty map `m`, after any
options and before any options other than `WithValues`, holds exactly the keys of `m`,
each with the value of `m`, TTL zero and reset-on-read off; its expiring-keys index is
empty, `Count` is the size of `m`, and `Get` finds every key of `m` at every clock
reading. -/
theorem New_WithValues_preload [Inhabited V] (m : Finmap (fun _ : K => V)) (now : Int)
    (pre post : List (NewOption K V)) (c : Cache K V)
    (hc : c = New ((pre ++ NewOption.WithValues m now :: post).map NewOption.toOption))
    (hm : m.keys.card ≠ 0) (hpost : ∀ o ∈ post, o.isWithValues = false) :
    c.items.keys = m.keys ∧
    (∀ k v, m.lookup k = some v → ∃ item, c.items.lookup k = some item ∧
        item.val = v ∧ item.ttl = 0 ∧ item.ttlReset = false) ∧
    c.expires = ∅ ∧
    c.Count = m.keys.card ∧
    (∀ k v t, m.lookup k = some v → (c.Get k t).1 = (v, true)) := by
  have hl : ∀ k, c.items.lookup k = (m.lookup k).map (fun v => newItem now v []) := by
    intro k
    rw [hc]
    exact lookup_New_WithValues m now pre post hm hpost k
  have hkeys : c.items.keys = m.keys := by
    ext k
    rw [Finmap.mem_keys, Finmap.mem_keys, ← Finmap.lookup_isSome, ← Finmap.lookup_isSome, hl]
    cases m.lookup k <;> simp
  refine ⟨hkeys, ?_, ?_, ?_, ?_⟩
  · intro k v hv
    exact ⟨newItem now v [], by rw [hl, hv]; rfl, rfl, rfl, rfl⟩
  · rw [hc]
    exact expires_New _
  · simp only [Count, hkeys]
  · intro k v t hv
    rw [Get_fst, hl, hv]
    simp [newItem_nil, cacheItem.checkTTL, Microseconds]

/-- C15, at a concrete input: a store built with a size hint, a resetting default TTL
of one second, the two preloaded pairs and another size hint counts two entries and
finds key `2` a thousand seconds later. -/
theorem New_WithValues_preload_witness :
    (New (([NewOption.WithSize 10, NewOption.WithDefaultTTL 1000000000 [true]] ++
        NewOption.WithValues preloadFixture 5 :: [NewOption.WithSize 1]).map
        NewOption.toOption)).Count = preloadFixture.keys.card ∧
    ((New (([NewOption.WithSize 10, NewOption.WithDefaultTTL 1000000000 [true]] ++
        NewOption.WithValues preloadFixture 5 :: [NewOption.WithSize 1]).map
        NewOption.toOption)).Get 2 1000000000000).1 = (8, true) :=
  ⟨(New_WithValues_preload preloadFixture 5
      [NewOption.WithSize 10, NewOption.WithDefaultTTL 1000000000 [true]]
      [NewOption.WithSize 1] _ rfl (by decide) (by decide)).2.2.2.1,
   (New_WithValues_preload preloadFixture 5
      [NewOption.WithSize 10, NewOption.WithDefaultTTL 1000000000 [true]]
      [NewOption.WithSize 1] _ rfl (by decide) (by decide)).2.2.2.2 2 8 1000000000000
      (by decide)⟩

end Cache

end Goche
